import Mathlib

/-!
Shallow embedding of the swc CLI option-resolution module
(packages/cli/src/swc/options.ts) and proofs of its specified properties.

The module turns command-line flags, an optional JSON CLI-configuration
file, and repeated dotted-path override directives into two structures:
compiler options (a dynamic JSON-like tree) and CLI options (a flat
record).  JavaScript values that can appear as option values are embedded
as the inductive type `JValue`; JavaScript objects are association lists
paired with two lookup disciplines that mirror the two ways the source
builds objects (property assignment vs. spread / Object.fromEntries).

File-system reads and the third-party argument parser (commander) are
external to the source file; where their behaviour decides a property it
is modelled from the specification and marked as such in the doc comment
of the corresponding definition.
-/

/-- Embedding of the JavaScript values that flow through the option
pipeline: JSON scalars, arrays and objects.  Numbers are represented
exactly as rationals (every JSON numeral denotes a rational).  A property
whose value is `undefined` is modelled as an absent key, which is
observationally equal for every read the source performs. -/
inductive JValue where
  | null
  | bool (b : Bool)
  | num (q : Rat)
  | str (s : String)
  | arr (elems : List JValue)
  | obj (fields : List (String × JValue))

/-- A commander `OptionValues` mapping (option name to value).  Built by
spreads and `Object.fromEntries`, where a later entry for a key overwrites
an earlier one, so the list may carry shadowed entries and lookup takes
the last match. -/
abbrev OptionValues := List (String × JValue)

/-- Lookup in an `OptionValues` mapping: the last entry for the key wins,
matching JavaScript object-spread semantics. -/
def getOpt : OptionValues → String → Option JValue
  | [], _ => none
  | (k1, v) :: rest, k =>
    match getOpt rest k with
    | some w => some w
    | none => if k1 = k then some v else none

/-- Lookup of a property of a JavaScript object built by property
assignment: keys are unique, the first entry for the key wins. -/
def objGet : List (String × JValue) → String → Option JValue
  | [], _ => none
  | (k1, v) :: rest, k => if k1 = k then some v else objGet rest k

/-- JavaScript property assignment `o[k] = v`: overwrite the entry for an
existing key in place, otherwise append the new key at the end. -/
def objSet : List (String × JValue) → String → JValue → List (String × JValue)
  | [], k, v => [(k, v)]
  | (k1, v1) :: rest, k, v =>
    if k1 = k then (k, v) :: rest else (k1, v1) :: objSet rest k v

/-- Property read on an arbitrary value; reading a property of a
non-object yields undefined for every read the source performs. -/
def objGetJ : JValue → String → Option JValue
  | .obj fields, k => objGet fields k
  | _, _ => none

/-- JavaScript truthiness of an embedded value. -/
def truthy : JValue → Bool
  | .null => false
  | .bool b => b
  | .num q => decide (q ≠ 0)
  | .str s => decide (s ≠ "")
  | .arr _ => true
  | .obj _ => true

/-- Truthiness of a possibly-undefined value (undefined is falsy). -/
def truthyO : Option JValue → Bool
  | none => false
  | some v => truthy v

/-- Whether a possibly-undefined value is a string, as tested by
`typeof x === "string"` in the source. -/
def isStringO : Option JValue → Bool
  | some (.str _) => true
  | _ => false

/-- Whether a possibly-undefined value is exactly the boolean `false`, as
tested by `x !== false` in the source (negated). -/
def isFalseO : Option JValue → Bool
  | some (.bool false) => true
  | _ => false

/-- JavaScript `a || b` over a possibly-undefined left operand, as used
for the list defaults in the CLI-options assembly. -/
def jsOr (a : Option JValue) (b : JValue) : JValue :=
  match a with
  | some v => if truthy v then v else b
  | none => b

/-- Kebab-to-camel normalisation applied to each top-level CLI-config
key, embedding the source regex replace: every occurrence of a hyphen
followed by a hyphen or lowercase letter is replaced by that second
character uppercased, scanning left to right without overlap. -/
def camelizeChars : List Char → List Char
  | [] => []
  | [c] => [c]
  | c1 :: c2 :: rest =>
    if c1 = '-' ∧ (c2 = '-' ∨ c2.isLower) then
      c2.toUpper :: camelizeChars rest
    else
      c1 :: camelizeChars (c2 :: rest)

/-- Kebab-to-camel normalisation of one config-file key. -/
def camelizeKey (s : String) : String :=
  String.mk (camelizeChars s.data)

/-- Normalisation of all top-level keys of the parsed CLI-config file
(the Object.fromEntries/Object.entries map in loadCLIConfigFile). -/
def normalizeConfigKeys (config : OptionValues) : OptionValues :=
  config.map fun p => (camelizeKey p.1, p.2)

/-- Merge step of loadCLIConfigFile: the parsed options are split into
default-provenance and explicitly-provided entries according to
commander's per-option value source, and the result object spreads the
defaults, then the normalised config-file entries, then the provided
entries.  The `isDefault` parameter embeds
`program.getOptionValueSource(key) === "default"`; reading the file and
parsing its JSON happen before this step and are abstracted: `config` is
the already-parsed top-level entry list. -/
def loadCLIConfigFile (isDefault : String → Bool) (opts config : OptionValues) :
    OptionValues :=
  (opts.filter fun p => isDefault p.1)
    ++ normalizeConfigKeys config
    ++ (opts.filter fun p => !isDefault p.1)

/-- JavaScript single-character `String.split`: splitting the empty
string yields one empty piece, and every separator occurrence starts a
new piece. -/
def splitOnChar (sep : Char) : List Char → List String
  | [] => [""]
  | c :: rest =>
    let r := splitOnChar sep rest
    if c = sep then "" :: r
    else
      match r with
      | [] => [String.mk [c]]
      | s :: tl => String.mk (c :: s.data) :: tl

/-- The collect hook for list-valued flags: a non-string value leaves the
previous value unchanged; a string is split on commas and appended to the
previous list when one exists. -/
def collect (value : JValue) (previousValue : Option (List String)) :
    Option (List String) :=
  match value with
  | .str s =>
    let values := splitOnChar ',' s.data
    some (match previousValue with
      | some prev => prev ++ values
      | none => values)
  | _ => previousValue

/-- Modelled from the spec: the argument parser invokes a flag's collect
hook once per occurrence of the flag, in encounter order, threading the
accumulated value and starting from undefined.  This models the commander
library, which is external to the source file. -/
def accumulateOption (occurrences : List String) : Option (List String) :=
  occurrences.foldl (fun prev v => collect (.str v) prev) none

/-- Modelled from the spec: commander records the boolean `true` as the
value of an optional-value flag that is supplied without a value, such as
a bare filename flag. -/
def bareFlagValue : JValue := .bool true

/-- JSON insignificant whitespace (space, tab, line feed, carriage
return). -/
def jsonSkipWs (cs : List Char) : List Char :=
  cs.dropWhile fun c => c = ' ' ∨ c = '\t' ∨ c = '\n' ∨ c = '\r'

/-- Numeric value of a list of decimal digit characters. -/
def digitsToNat (ds : List Char) : Nat :=
  ds.foldl (fun a c => a * 10 + (c.toNat - '0'.toNat)) 0

/-- Value of a hexadecimal digit character, if it is one. -/
def hexVal (c : Char) : Option Nat :=
  if '0' ≤ c ∧ c ≤ '9' then some (c.toNat - '0'.toNat)
  else if 'a' ≤ c ∧ c ≤ 'f' then some (c.toNat - 'a'.toNat + 10)
  else if 'A' ≤ c ∧ c ≤ 'F' then some (c.toNat - 'A'.toNat + 10)
  else none

/-- Body of a JSON string literal, after the opening quote: consume
characters and escape sequences up to the closing quote, rejecting
unescaped control characters and malformed escapes.  Returns the decoded
characters and the rest of the input.  A \u escape decodes its code
unit directly (an unpaired surrogate falls back to the replacement
character via Char.ofNat). -/
def jsonStringBody : List Char → List Char → Option (List Char × List Char)
  | acc, '"' :: rest => some (acc.reverse, rest)
  | acc, '\\' :: esc :: rest =>
    match esc with
    | '"' => jsonStringBody ('"' :: acc) rest
    | '\\' => jsonStringBody ('\\' :: acc) rest
    | '/' => jsonStringBody ('/' :: acc) rest
    | 'b' => jsonStringBody ('\x08' :: acc) rest
    | 'f' => jsonStringBody ('\x0c' :: acc) rest
    | 'n' => jsonStringBody ('\n' :: acc) rest
    | 'r' => jsonStringBody ('\r' :: acc) rest
    | 't' => jsonStringBody ('\t' :: acc) rest
    | 'u' =>
      match rest with
      | h1 :: h2 :: h3 :: h4 :: rest2 =>
        match hexVal h1, hexVal h2, hexVal h3, hexVal h4 with
        | some a, some b, some c, some d =>
          jsonStringBody (Char.ofNat (((a * 16 + b) * 16 + c) * 16 + d) :: acc) rest2
        | _, _, _, _ => none
      | _ => none
    | _ => none
  | acc, c :: rest =>
    if c.toNat < 32 then none else jsonStringBody (c :: acc) rest
  | _, [] => none

/-- A JSON numeral, following the JSON grammar: optional minus, an
integer part without a superfluous leading zero, an optional fraction
with at least one digit, an optional exponent with at least one digit.
Returns the exact rational value and the rest of the input. -/
def jsonNumber (cs : List Char) : Option (Rat × List Char) :=
  let signSplit : Int × List Char :=
    match cs with
    | '-' :: r => (-1, r)
    | _ => (1, cs)
  let sign := signSplit.1
  let intSplit := signSplit.2.span Char.isDigit
  let intDs := intSplit.1
  if intDs = [] then none
  else if 2 ≤ intDs.length ∧ intDs.head? = some '0' then none
  else
    let fracSplit : Bool × List Char × List Char :=
      match intSplit.2 with
      | '.' :: r =>
        let ds := r.span Char.isDigit
        (!ds.1.isEmpty, ds.1, ds.2)
      | _ => (true, [], intSplit.2)
    if !fracSplit.1 then none
    else
      let fracDs := fracSplit.2.1
      let expSplit : Bool × Int × List Char :=
        match fracSplit.2.2 with
        | 'e' :: r | 'E' :: r =>
          let esignSplit : Int × List Char :=
            match r with
            | '+' :: rr => (1, rr)
            | '-' :: rr => (-1, rr)
            | _ => (1, r)
          let eds := esignSplit.2.span Char.isDigit
          if eds.1.isEmpty then (false, 0, eds.2)
          else (true, esignSplit.1 * digitsToNat eds.1, eds.2)
        | r => (true, 0, r)
      if !expSplit.1 then none
      else
        let mantissa : Int :=
          sign * (digitsToNat intDs * 10 ^ fracDs.length + digitsToNat fracDs)
        let scale : Int := expSplit.2.1 - fracDs.length
        let q : Rat :=
          if 0 ≤ scale then ((mantissa * 10 ^ scale.toNat : Int) : Rat)
          else (mantissa : Rat) / ((10 ^ (-scale).toNat : Nat) : Rat)
        some (q, expSplit.2.2)

mutual

/-- One JSON value, by recursive descent with a fuel bound on the nesting
depth; models the grammar accepted by the JavaScript JSON.parse builtin,
which the source applies to override values and source-map flag values. -/
def jsonValue : Nat → List Char → Option (JValue × List Char)
  | 0, _ => none
  | fuel + 1, cs =>
    match jsonSkipWs cs with
    | 'n' :: 'u' :: 'l' :: 'l' :: rest => some (.null, rest)
    | 't' :: 'r' :: 'u' :: 'e' :: rest => some (.bool true, rest)
    | 'f' :: 'a' :: 'l' :: 's' :: 'e' :: rest => some (.bool false, rest)
    | '"' :: rest =>
      match jsonStringBody [] rest with
      | some (s, rest2) => some (.str (String.mk s), rest2)
      | none => none
    | '[' :: rest =>
      match jsonSkipWs rest with
      | ']' :: rest2 => some (.arr [], rest2)
      | rest2 =>
        match jsonItems fuel rest2 with
        | some (vs, rest3) => some (.arr vs, rest3)
        | none => none
    | '{' :: rest =>
      match jsonSkipWs rest with
      | '}' :: rest2 => some (.obj [], rest2)
      | rest2 =>
        match jsonFields fuel rest2 with
        | some (fs, rest3) => some (.obj fs, rest3)
        | none => none
    | cs2 =>
      match jsonNumber cs2 with
      | some (q, rest) => some (.num q, rest)
      | none => none

/-- Comma-separated JSON array elements up to the closing bracket. -/
def jsonItems : Nat → List Char → Option (List JValue × List Char)
  | 0, _ => none
  | fuel + 1, cs =>
    match jsonValue fuel cs with
    | some (v, rest) =>
      match jsonSkipWs rest with
      | ',' :: rest2 =>
        match jsonItems fuel rest2 with
        | some (vs, rest3) => some (v :: vs, rest3)
        | none => none
      | ']' :: rest2 => some ([v], rest2)
      | _ => none
    | none => none

/-- Comma-separated JSON object members up to the closing brace. -/
def jsonFields : Nat → List Char → Option (List (String × JValue) × List Char)
  | 0, _ => none
  | fuel + 1, cs =>
    match jsonSkipWs cs with
    | '"' :: rest =>
      match jsonStringBody [] rest with
      | some (k, rest2) =>
        match jsonSkipWs rest2 with
        | ':' :: rest3 =>
          match jsonValue fuel rest3 with
          | some (v, rest4) =>
            match jsonSkipWs rest4 with
            | ',' :: rest5 =>
              match jsonFields fuel rest5 with
              | some (fs, rest6) => some ((String.mk k, v) :: fs, rest6)
              | none => none
            | '}' :: rest5 => some ([(String.mk k, v)], rest5)
            | _ => none
          | none => none
        | _ => none
      | none => none
    | _ => none

end

/-- The opportunistic JSON-or-string coercion of the source: parse the
whole string as one JSON document, and fall back to the literal string
when parsing fails (JSON.parse throwing).  Fuel twice the input length
suffices because every two levels of descent consume at least one
character. -/
def unstringify (val : String) : JValue :=
  match jsonValue (2 * val.length + 2) val.data with
  | some (v, rest) => if jsonSkipWs rest = [] then v else .str val
  | none => .str val

/-- Split of one override directive on the first equals sign, embedding
the indexOf/substring logic of the source: the characters before the
first equals sign, and, when one occurs, the characters after it. -/
def splitOnceOnEq : List Char → List Char × Option (List Char)
  | [] => ([], none)
  | c :: rest =>
    if c = '=' then ([], some rest)
    else
      let r := splitOnceOnEq rest
      (c :: r.1, r.2)

/-- Key and value of one override directive: no equals sign yields the
boolean true, otherwise the right-hand side goes through the
JSON-or-string coercion. -/
def parseOverrideDirective (cfg : String) : String × JValue :=
  match splitOnceOnEq cfg.data with
  | (kcs, none) => (String.mk kcs, .bool true)
  | (kcs, some vcs) => (String.mk kcs, unstringify (String.mk vcs))

/-- Walk of the compiler-options tree along a dot-separated path: for
every segment but the last, descend, first installing an empty object
where the segment is absent; at the last segment assign the value,
overwriting whatever was there.  Descending through a value that is not
an object throws an uncontrolled TypeError in the source (strict-mode
assignment on a primitive); the model leaves the tree unchanged on that
branch, which no verified property depends on. -/
def setPath : JValue → List String → JValue → JValue
  | .obj fields, [k], v => .obj (objSet fields k v)
  | .obj fields, k :: rest :: more, v =>
    let child :=
      match objGet fields k with
      | some c => c
      | none => .obj []
    .obj (objSet fields k (setPath child (rest :: more) v))
  | o, _, _ => o

/-- Application of one override directive string to the compiler-options
tree. -/
def applyOverrideDirective (cfg : String) (options : JValue) : JValue :=
  let kv := parseOverrideDirective cfg
  setPath options (splitOnChar '.' kv.1.data) kv.2

/-- Application of a list of override directives, strictly left to
right. -/
def applyOverrides (directives : List String) (options : JValue) : JValue :=
  directives.foldl (fun acc cfg => applyOverrideDirective cfg acc) options

/-- The directive strings held by the config option value: the collect
hook only ever accumulates strings, so any other element is skipped. -/
def directiveStrings : JValue → List String
  | .arr xs =>
    xs.filterMap fun x =>
      match x with
      | .str s => some s
      | _ => none
  | _ => []

/-- Whitespace skipped by parseFloat before reading a numeral (the ASCII
whitespace characters plus the no-break space). -/
def isFloatWs (c : Char) : Bool :=
  c = ' ' ∨ c = '\t' ∨ c = '\n' ∨ c = '\r' ∨ c = '\x0b' ∨ c = '\x0c' ∨ c = '\u00A0'

/-- A JavaScript number, the result type of parseFloat: NaN, a signed
infinity, or a finite IEEE-754 binary64 double whose exact value is the
mantissa times two to the exponent (every finite double is such a dyadic
rational).  Negative zero is represented as zero: the two are
indistinguishable under every read the source performs on the workers
value (the integrality test, the sign test, rendering). -/
inductive JSNumber where
  | nan
  | inf (negative : Bool)
  | finite (mantissa : Int) (exponent : Int)
deriving DecidableEq

/-- Floor of the base-two logarithm by repeated halving, with an explicit
fuel bound (the number itself always suffices). -/
def natLog2F : Nat → Nat → Nat
  | 0, _ => 0
  | fuel + 1, n => if n ≤ 1 then 0 else natLog2F fuel (n / 2) + 1

/-- Floor of the base-two logarithm of the positive rational A over D:
start from the difference of the integer logarithms and adjust by one
step where needed, so that two to the result is at most A over D, which
is below twice that. -/
def floorLog2Rat (A D : Nat) : Int :=
  let e0 : Int := (natLog2F A A : Int) - (natLog2F D D : Int)
  let le2 := fun (e : Int) =>
    if 0 ≤ e then decide (D * 2 ^ e.toNat ≤ A) else decide (D ≤ A * 2 ^ (-e).toNat)
  if le2 (e0 + 1) then e0 + 1
  else if le2 e0 then e0
  else e0 - 1

/-- Round a non-negative fraction N over D to the nearest natural number,
ties to even, as IEEE-754 round-to-nearest does. -/
def roundHalfEvenNat (N D : Nat) : Nat :=
  let q0 := N / D
  let r := N % D
  if 2 * r < D then q0
  else if D < 2 * r then q0 + 1
  else if q0 % 2 = 0 then q0 else q0 + 1

/-- Round the exact decimal m over ten-to-the-scale to the nearest
IEEE-754 binary64 double, ties to even: choose the step two-to-the-q at
which a normal value gets a 53-bit significand, clamping q to the
binary64 range (subnormal step at -1074, top-binade step at 971), round
the value scaled by that step, and overflow to infinity exactly when the
rounded value reaches two to the 1024 (a significand of two to the 53 at
the top step).  The finite result carries the exact value of the rounded
double as mantissa and exponent. -/
def roundDecToDouble (m : Int) (scale : Nat) : JSNumber :=
  if m = 0 then .finite 0 0
  else
    let A : Nat := m.natAbs
    let D : Nat := 10 ^ scale
    let e : Int := floorLog2Rat A D
    let q : Int := max (-1074) (min (e - 52) 971)
    let c : Nat :=
      if 0 ≤ q then roundHalfEvenNat A (D * 2 ^ q.toNat)
      else roundHalfEvenNat (A * 2 ^ (-q).toNat) D
    if 2 ^ 53 ≤ c ∧ q = 971 then .inf (decide (m < 0))
    else if c = 0 then .finite 0 0
    else .finite (if m < 0 then -(c : Int) else (c : Int)) q

/-- The JavaScript parseFloat builtin, applied by the source to the raw
workers value: skip leading whitespace, read an optional sign, accept a
literal Infinity, and otherwise read the longest prefix shaped digits,
optional point, more digits, and an optional exponent that only counts
when complete; no numeric prefix at all gives NaN.  The decimal the
prefix denotes is rounded to the nearest IEEE-754 double, which is what
the builtin returns. -/
def parseFloatJS (s : String) : JSNumber :=
  let cs := s.data.dropWhile isFloatWs
  let signSplit : Int × List Char :=
    match cs with
    | '-' :: r => (-1, r)
    | '+' :: r => (1, r)
    | _ => (1, cs)
  let sign := signSplit.1
  if signSplit.2.take 8 = "Infinity".data then .inf (decide (sign < 0))
  else
    let intSplit := signSplit.2.span Char.isDigit
    let intDs := intSplit.1
    let fracDs : List Char :=
      match intSplit.2 with
      | '.' :: r => (r.span Char.isDigit).1
      | _ => []
    let afterFrac : List Char :=
      match intSplit.2 with
      | '.' :: r => (r.span Char.isDigit).2
      | r => r
    if intDs = [] ∧ fracDs = [] then .nan
    else
      let exp : Int :=
        match afterFrac with
        | 'e' :: r | 'E' :: r =>
          let esignSplit : Int × List Char :=
            match r with
            | '+' :: rr => (1, rr)
            | '-' :: rr => (-1, rr)
            | _ => (1, r)
          let eds := (esignSplit.2.span Char.isDigit).1
          if eds.isEmpty then 0 else esignSplit.1 * digitsToNat eds
        | _ => 0
      let mantissa : Int :=
        sign * (digitsToNat intDs * 10 ^ fracDs.length + digitsToNat fracDs)
      let scale : Int := (fracDs.length : Int) - exp
      if 0 ≤ scale then roundDecToDouble mantissa scale.toNat
      else roundDecToDouble (mantissa * 10 ^ (-scale).toNat) 0

/-- The Number.isInteger test on a JavaScript number: false for NaN and
the infinities; a finite double is an integer when its exponent is
non-negative or its mantissa is divisible by two to the negated
exponent. -/
def isIntegerJS : JSNumber → Bool
  | .finite m q => if 0 ≤ q then true else decide (m % (2 : Int) ^ (-q).toNat = 0)
  | _ => false

/-- The workers less-than-zero test on a JavaScript number: false for
NaN, the sign for an infinity, the mantissa sign for a finite double. -/
def isNegativeJS : JSNumber → Bool
  | .nan => false
  | .inf negative => negative
  | .finite m _ => decide (m < 0)

/-- The acceptance condition of the worker-count validation, the negation
of the rejection test of the source (not an integer, or negative): the
parseFloat double passes Number.isInteger and is not below zero. -/
def floatOkForWorkers (d : JSNumber) : Bool :=
  isIntegerJS d && !isNegativeJS d

/-- Integer value of an integral finite JavaScript number; only read
under the isIntegerJS guard. -/
def floatToInt : JSNumber → Int
  | .finite m q =>
    if 0 ≤ q then m * (2 : Int) ^ q.toNat else m / (2 : Int) ^ (-q).toNat
  | _ => 0

/-- Multiplicity of p in n by repeated division, with an explicit fuel
bound (the number itself always suffices). -/
def multiplicityF (p : Nat) : Nat → Nat → Nat
  | 0, _ => 0
  | fuel + 1, n =>
    if n ≠ 0 ∧ n % p = 0 then multiplicityF p fuel (n / p) + 1 else 0

/-- Left-pad a digit list with zeros up to the given length. -/
def padLeftZeros (ds : List Char) (len : Nat) : List Char :=
  List.replicate (len - ds.length) '0' ++ ds

/-- Drop trailing zero characters. -/
def trimTrailingZeros (ds : List Char) : List Char :=
  (ds.reverse.dropWhile fun c => c = '0').reverse

/-- ECMAScript plain-decimal rendering of a number with a finite decimal
expansion: sign, integer digits, and, when the fraction is non-zero, a
point followed by the exact fraction digits without trailing zeros.  A
denominator of the form two-to-the-a times five-to-the-b (the only shape
a JSON numeral or a finite double can produce) is rendered exactly; the
exponent notation ECMAScript switches to outside the plain range is not
reached by any option value this development evaluates. -/
def ratDecimalString (q : Rat) : String :=
  let a := multiplicityF 2 q.den q.den
  let b := multiplicityF 5 q.den q.den
  let s := max a b
  let N := q.num.natAbs * (2 ^ (s - a) * 5 ^ (s - b))
  let sign := if q.num < 0 then "-" else ""
  let fracDigits :=
    trimTrailingZeros (padLeftZeros (Nat.toDigits 10 (N % 10 ^ s)) s)
  if fracDigits.isEmpty then sign ++ toString (N / 10 ^ s)
  else sign ++ toString (N / 10 ^ s) ++ "." ++ String.mk fracDigits

/-- JavaScript ToString coercion as applied when the raw workers value is
interpolated into the error message and handed to parseFloat: strings
pass through; booleans, null and plain objects follow the ECMAScript
rules; a number is rendered in exact plain-decimal notation; an array is
rendered as the empty string (the ECMAScript rendering of the empty
array - the element join of a non-empty array is not modelled, and no
verified property depends on an array-valued workers option). -/
def jsToString : JValue → String
  | .str s => s
  | .bool true => "true"
  | .bool false => "false"
  | .null => "null"
  | .num q => ratDecimalString q
  | .arr _ => ""
  | .obj _ => "[object Object]"

/-- The raw workers option value when the source enters the workers
branch: the loose inequality against null skips both undefined and
null. -/
def workersRaw (opts : OptionValues) : Option JValue :=
  match getOpt opts "workers" with
  | none => none
  | some .null => none
  | some v => some v

/-- The error message produced for an unacceptable workers value, with
the raw value echoed. -/
def workersMsg (v : JValue) : String :=
  "--workers must be a positive integer (found " ++ jsToString v ++ ")"

/-- Error contribution of the worker-count validation: when a workers
value was supplied, parseFloat it and reject unless the resulting double
is a non-negative integer. -/
def workersErrors (opts : OptionValues) : List String :=
  match workersRaw opts with
  | none => []
  | some v =>
    if floatOkForWorkers (parseFloatJS (jsToString v)) then [] else [workersMsg v]

/-- The workers field of the assembled CLI options.  In the source the
variable holds the raw parseFloat double; a NaN, infinite, non-integral
or negative double forces process exit before the options record is
returned, so the field is only ever observed at a non-negative integral
double, which the model represents exactly by its integer value
(undefined when no workers value was supplied or validation will
reject it). -/
def workersResolved (opts : OptionValues) : Option Int :=
  match workersRaw opts with
  | none => none
  | some v =>
    if floatOkForWorkers (parseFloatJS (jsToString v)) then
      some (floatToInt (parseFloatJS (jsToString v)))
    else none

/-- The stdin-ambiguity validation message. -/
def stdinMsg : String :=
  "stdin compilation requires either -f/--filename [filename] or --no-swcrc"

/-- The collected cross-option validation errors of parserArgs, in the
order the source pushes them: the out-dir-needs-filenames rule, the
out-file and out-dir mutual exclusion, the two watch requirements (the
source nests them under one watch conditional; here each guard carries
the watch conjunct, pushing the same messages in the same order), the
stdin-ambiguity rule, and the worker-count rule. -/
def validationErrors (opts : OptionValues) (filenames : List String) :
    List String :=
  (if truthyO (getOpt opts "outDir") && filenames.isEmpty then
    ["--out-dir requires filenames"]
  else [])
  ++ (if truthyO (getOpt opts "outFile") && truthyO (getOpt opts "outDir") then
    ["--out-file and --out-dir cannot be used together"]
  else [])
  ++ (if truthyO (getOpt opts "watch")
      && (!truthyO (getOpt opts "outFile") && !truthyO (getOpt opts "outDir")) then
    ["--watch requires --out-file or --out-dir"]
  else [])
  ++ (if truthyO (getOpt opts "watch") && filenames.isEmpty then
    ["--watch requires filenames"]
  else [])
  ++ (if !truthyO (getOpt opts "outDir") && filenames.isEmpty
      && !isStringO (getOpt opts "filename") && !isFalseO (getOpt opts "swcrc") then
    [stdinMsg]
  else [])
  ++ workersErrors opts

/-- The observable effect of verifyArgsErrors: nothing when the error
list is empty, otherwise the lines written to the error stream (a fixed
banner, then each message indented on its own line) and the process exit
status 2. -/
def verifyArgsErrors (errors : List String) : Option (List String × Nat) :=
  match errors with
  | [] => none
  | _ => some ("swc:" :: errors.map (fun e => "  " ++ e), 2)

/-- The default extension allow-list used when no extensions flag was
supplied. -/
def DEFAULT_EXTENSIONS : JValue :=
  .arr [.str ".js", .str ".jsx", .str ".es6", .str ".es", .str ".mjs",
    .str ".ts", .str ".tsx", .str ".cts", .str ".mts"]

/-- The flat CLI-options record, with fields in the order of the object
literal that builds it.  Fields the source copies without coercion keep
the possibly-undefined JavaScript value; boolean fields carry the result
of the coercion the source applies (double negation and the Boolean
function agree with truthiness). -/
structure CliOptions where
  outDir : Option JValue
  outFile : Option JValue
  stripLeadingPaths : Bool
  filename : Option JValue
  filenames : List String
  sync : Bool
  workers : Option Int
  sourceMapTarget : Option JValue
  extensions : JValue
  watch : Bool
  copyFiles : Bool
  outFileExtension : Option JValue
  includeDotfiles : Bool
  deleteDirOnStart : Bool
  quiet : Bool
  only : JValue
  ignore : JValue

/-- Assembly of the CLI-options record from the merged option mapping
and the positional filenames, field for field after the source object
literal. -/
def assembleCliOptions (opts : OptionValues) (filenames : List String) :
    CliOptions :=
  ⟨getOpt opts "outDir",
    getOpt opts "outFile",
    truthyO (getOpt opts "stripLeadingPaths"),
    getOpt opts "filename",
    filenames,
    truthyO (getOpt opts "sync"),
    workersResolved opts,
    getOpt opts "sourceMapTarget",
    jsOr (getOpt opts "extensions") DEFAULT_EXTENSIONS,
    truthyO (getOpt opts "watch"),
    truthyO (getOpt opts "copyFiles"),
    getOpt opts "outFileExtension",
    truthyO (getOpt opts "includeDotfiles"),
    truthyO (getOpt opts "deleteDirOnStart"),
    truthyO (getOpt opts "quiet"),
    jsOr (getOpt opts "only") (.arr []),
    jsOr (getOpt opts "ignore") (.arr [])⟩

/-- A field entry when the value is defined, nothing when it is
undefined (an undefined-valued property reads back as undefined, so
absence models it exactly). -/
def optField (k : String) (v : Option JValue) : List (String × JValue) :=
  match v with
  | some w => [(k, w)]
  | none => []

/-- Assembly of the compiler-options tree before override application:
the fixed jsc skeleton (whose parser field, undefined in the source, is
modelled as absent), the four copied fields, and the sourceMaps field,
which the source assigns only under an explicit definedness test. -/
def assembleSwcOptions (opts : OptionValues) : JValue :=
  .obj ([("jsc", .obj [("transform", .obj [])])]
    ++ optField "sourceFileName" (getOpt opts "sourceFileName")
    ++ optField "sourceRoot" (getOpt opts "sourceRoot")
    ++ optField "configFile" (getOpt opts "configFile")
    ++ optField "swcrc" (getOpt opts "swcrc")
    ++ optField "sourceMaps" (getOpt opts "sourceMaps"))

/-- Outcome of the option-resolution pipeline: either the two assembled
structures, or the diagnostic lines and exit status of a terminated
process. -/
inductive CliOutcome where
  | success (swcOptions : JValue) (cliOptions : CliOptions)
  | exit (stderrLines : List String) (exitCode : Nat)

/-- The parserArgs pipeline from the point where the option mapping is
final (commander parsing and the optional CLI-config-file merge happen
upstream): collect every violated validation rule, and either terminate
with the aggregated report and exit status 2, or assemble and return the
compiler options (with the override directives applied left to right)
and the CLI options. -/
def parserArgs (opts : OptionValues) (filenames : List String) : CliOutcome :=
  match verifyArgsErrors (validationErrors opts filenames) with
  | some p => .exit p.1 p.2
  | none =>
    let swcOptions0 := assembleSwcOptions opts
    let swcOptions :=
      match getOpt opts "config" with
      | some v =>
        if truthy v then applyOverrides (directiveStrings v) swcOptions0
        else swcOptions0
      | none => swcOptions0
    .success swcOptions (assembleCliOptions opts filenames)

theorem data_append (s t : String) : (s ++ t).data = s.data ++ t.data := rfl

theorem getOpt_cons (k1 : String) (v : JValue) (t : OptionValues) (k : String) :
    getOpt ((k1, v) :: t) k =
      match getOpt t k with
      | some w => some w
      | none => if k1 = k then some v else none := rfl

theorem getOpt_append (a b : OptionValues) (k : String) :
    getOpt (a ++ b) k =
      match getOpt b k with
      | some w => some w
      | none => getOpt a k := by
  induction a with
  | nil =>
    show getOpt b k = _
    cases getOpt b k <;> rfl
  | cons p t ih =>
    cases p with
    | mk k1 v =>
      rw [List.cons_append, getOpt_cons, ih, getOpt_cons]
      cases getOpt b k <;> rfl

theorem getOpt_filter (f : String → Bool) (o : OptionValues) (k : String) :
    getOpt (o.filter fun p => f p.1) k = if f k then getOpt o k else none := by
  induction o with
  | nil => cases hf : f k <;> simp [getOpt, hf]
  | cons p t ih =>
    cases p with
    | mk k1 v =>
      simp only [List.filter_cons]
      by_cases hf1 : f k1 = true
      · rw [if_pos hf1, getOpt_cons, getOpt_cons, ih]
        by_cases hfk : f k = true
        · rw [if_pos hfk, if_pos hfk]
        · have hne : k1 ≠ k := fun he => hfk (he ▸ hf1)
          rw [if_neg hfk, if_neg hfk]
          simp [hne]
      · rw [if_neg hf1, ih, getOpt_cons]
        by_cases hfk : f k = true
        · have hne : k1 ≠ k := fun he => hf1 (he ▸ hfk)
          rw [if_pos hfk, if_pos hfk]
          cases getOpt t k with
          | some w => rfl
          | none => simp [hne]
        · rw [if_neg hfk, if_neg hfk]

theorem objGet_append (a b : List (String × JValue)) (k : String) :
    objGet (a ++ b) k =
      match objGet a k with
      | some w => some w
      | none => objGet b k := by
  induction a with
  | nil => rfl
  | cons p t ih =>
    cases p with
    | mk k1 v =>
      by_cases he : k1 = k
      · simp [objGet, he]
      · simp [objGet, he, ih]

theorem mem_if_singleton {c : Bool} {x y : String} :
    (x ∈ if c = true then [y] else []) ↔ (c = true ∧ x = y) := by
  cases c <;> simp

theorem workersErrors_none (opts : OptionValues) (h : workersRaw opts = none) :
    workersErrors opts = [] := by
  unfold workersErrors
  rw [h]

theorem workersErrors_some (opts : OptionValues) (v : JValue)
    (h : workersRaw opts = some v) :
    workersErrors opts =
      if floatOkForWorkers (parseFloatJS (jsToString v)) then []
      else [workersMsg v] := by
  unfold workersErrors
  rw [h]

theorem workersErrors_shape (opts : OptionValues) :
    workersErrors opts = [] ∨ ∃ v, workersErrors opts = [workersMsg v] := by
  rcases hr : workersRaw opts with _ | v
  · exact Or.inl (workersErrors_none opts hr)
  · rw [workersErrors_some opts v hr]
    by_cases h : floatOkForWorkers (parseFloatJS (jsToString v)) = true
    · exact Or.inl (by simp [h])
    · exact Or.inr ⟨v, by simp [h]⟩

theorem stdinMsg_ne_workersMsg (v : JValue) : stdinMsg ≠ workersMsg v := by
  intro h
  have h2 : some 's' = some '-' := congrArg (fun s : String => s.data.head?) h
  exact absurd h2 (by decide)

theorem stdin_not_mem_workersErrors (opts : OptionValues) :
    stdinMsg ∉ workersErrors opts := by
  intro hm
  rcases workersErrors_shape opts with h | ⟨v, h⟩
  · rw [h] at hm
    exact absurd hm (List.not_mem_nil _)
  · rw [h] at hm
    exact stdinMsg_ne_workersMsg v (List.mem_singleton.mp hm)

theorem stdin_mem_validationErrors (opts : OptionValues) (fns : List String) :
    stdinMsg ∈ validationErrors opts fns ↔
      (truthyO (getOpt opts "outDir") = false ∧ fns = []
        ∧ isStringO (getOpt opts "filename") = false
        ∧ isFalseO (getOpt opts "swcrc") = false) := by
  have hw := stdin_not_mem_workersErrors opts
  simp only [validationErrors, List.mem_append, mem_if_singleton]
  constructor
  · rintro (((((⟨_, he⟩ | ⟨_, he⟩) | ⟨_, he⟩) | ⟨_, he⟩) | ⟨hc, _⟩) | hm)
    · exact absurd he (by decide)
    · exact absurd he (by decide)
    · exact absurd he (by decide)
    · exact absurd he (by decide)
    · simp only [Bool.and_eq_true, Bool.not_eq_true'] at hc
      obtain ⟨⟨⟨ho, hf⟩, hs⟩, hsw⟩ := hc
      exact ⟨ho, List.isEmpty_iff.mp hf, hs, hsw⟩
    · exact absurd hm hw
  · rintro ⟨ho, hf, hs, hsw⟩
    subst hf
    exact Or.inl (Or.inr ⟨by simp [ho, hs, hsw], by simp⟩)

theorem splitOnceOnEq_of_not_mem : ∀ cs : List Char, '=' ∉ cs →
    splitOnceOnEq cs = (cs, none)
  | [], _ => rfl
  | c :: t, h => by
    rw [List.mem_cons, not_or] at h
    have hc : c ≠ '=' := fun he => h.1 he.symm
    simp only [splitOnceOnEq, if_neg hc, splitOnceOnEq_of_not_mem t h.2]

theorem splitOnceOnEq_append : ∀ cs rhs : List Char, '=' ∉ cs →
    splitOnceOnEq (cs ++ '=' :: rhs) = (cs, some rhs)
  | [], rhs, _ => by simp [splitOnceOnEq]
  | c :: t, rhs, h => by
    rw [List.mem_cons, not_or] at h
    have hc : c ≠ '=' := fun he => h.1 he.symm
    simp only [List.cons_append, splitOnceOnEq, if_neg hc]
    rw [show splitOnceOnEq (t.append ('=' :: rhs)) = (t, some rhs) from
      splitOnceOnEq_append t rhs h.2]

theorem collect_foldl_some (occs : List String) (prev : List String) :
    occs.foldl (fun p v => collect (.str v) p) (some prev) =
      some (prev ++ (occs.map fun s => splitOnChar ',' s.data).flatten) := by
  induction occs generalizing prev with
  | nil => simp
  | cons o t ih =>
    simp only [List.foldl_cons, List.map_cons, List.flatten_cons]
    rw [show collect (.str o) (some prev) = some (prev ++ splitOnChar ',' o.data)
      from rfl, ih, List.append_assoc]

/-- C1: Three-way merge precedence of the CLI-config-file load — for every
option key the merged value is the explicitly-supplied command-line value
when the key has explicit provenance (and hence sits in the provided
partition), otherwise the normalised config-file value when the key is
present there, otherwise the schema-default partition value; the second
and third conjuncts identify the provided and default partitions with the
command-line values of explicit, respectively default, provenance, so a
schema default never beats a config-file value and an explicit flag beats
both. -/
theorem loadCLIConfigFile_three_way_merge (isDefault : String → Bool)
    (opts config : OptionValues) (k : String) :
    getOpt (loadCLIConfigFile isDefault opts config) k =
      (if (getOpt (opts.filter fun p => !isDefault p.1) k).isSome then
        getOpt (opts.filter fun p => !isDefault p.1) k
      else if (getOpt (normalizeConfigKeys config) k).isSome then
        getOpt (normalizeConfigKeys config) k
      else getOpt (opts.filter fun p => isDefault p.1) k)
    ∧ getOpt (opts.filter fun p => !isDefault p.1) k =
        (if isDefault k then none else getOpt opts k)
    ∧ getOpt (opts.filter fun p => isDefault p.1) k =
        (if isDefault k then getOpt opts k else none) := by
  refine ⟨?_, ?_, ?_⟩
  · unfold loadCLIConfigFile
    rw [List.append_assoc, getOpt_append, getOpt_append]
    rcases getOpt (opts.filter fun p => !isDefault p.1) k with _ | w
    · rcases getOpt (normalizeConfigKeys config) k with _ | u
      · simp
      · simp
    · simp
  · rw [getOpt_filter (fun s => !isDefault s) opts k]
    cases hd : isDefault k <;> simp [hd]
  · rw [getOpt_filter (fun s => isDefault s) opts k]

/-- C2: Override application — an override directive is split once on its
first equals sign, with a missing right-hand side denoting the boolean
true and a present one going through the JSON-or-string coercion; the
compiler-options tree is walked along the dot-separated key, an empty
object is installed for an absent non-final segment, the final segment is
assigned (overwriting any prior value), and the two directives of the
spec example produce the expected nested structure from an empty tree. -/
theorem parserArgs_override_application (key rhs bare : String)
    (fields : List (String × JValue)) (seg1 seg2 : String) (v : JValue)
    (hkey : '=' ∉ key.data) (hbare : '=' ∉ bare.data)
    (habsent : objGet fields seg1 = none) :
    parseOverrideDirective (key ++ "=" ++ rhs) = (key, unstringify rhs)
    ∧ parseOverrideDirective bare = (bare, .bool true)
    ∧ setPath (.obj fields) [seg1, seg2] v =
        .obj (objSet fields seg1 (.obj [(seg2, v)]))
    ∧ applyOverrides ["module.type=amd", "module.moduleId=hello"] (.obj []) =
        .obj [("module", .obj [("type", .str "amd"), ("moduleId", .str "hello")])] := by
  refine ⟨?_, ?_, ?_, rfl⟩
  · unfold parseOverrideDirective
    have hd : (key ++ "=" ++ rhs).data = key.data ++ '=' :: rhs.data := by
      rw [data_append, data_append, List.append_assoc]
      rfl
    rw [hd, splitOnceOnEq_append key.data rhs.data hkey]
  · unfold parseOverrideDirective
    rw [splitOnceOnEq_of_not_mem bare.data hbare]
  · simp [setPath, objSet, habsent]

/-- Witness for C2: the hypotheses discharged at the concrete directives
of the spec example. -/
theorem parserArgs_override_application_witness :
    parseOverrideDirective ("module" ++ "=" ++ "amd") = ("module", unstringify "amd")
    ∧ parseOverrideDirective "watch" = ("watch", JValue.bool true)
    ∧ setPath (.obj []) ["a", "b"] (.bool true) =
        .obj (objSet [] "a" (.obj [("b", .bool true)]))
    ∧ applyOverrides ["module.type=amd", "module.moduleId=hello"] (.obj []) =
        .obj [("module", .obj [("type", .str "amd"), ("moduleId", .str "hello")])] :=
  parserArgs_override_application "module" "amd" "watch" [] "a" "b" (.bool true)
    (by decide) (by decide) rfl

/-- C4: List-valued flag accumulation — for a list-valued flag supplied
at least once, the resolved list is the concatenation, in encounter
order, of the comma-split values of each occurrence. -/
theorem collect_accumulates (occs : List String) (h : occs ≠ []) :
    accumulateOption occs =
      some ((occs.map fun s => splitOnChar ',' s.data).flatten) := by
  cases occs with
  | nil => exact absurd rfl h
  | cons o t =>
    show (o :: t).foldl (fun p v => collect (.str v) p) none = _
    rw [List.foldl_cons,
      show collect (.str o) none = some (splitOnChar ',' o.data) from rfl,
      collect_foldl_some]
    simp

/-- Witness for C4 at the spec example: two occurrences of the ignore
flag concatenate to the three values. -/
theorem collect_accumulates_witness :
    accumulateOption ["a,b", "c"] = some ["a", "b", "c"] :=
  collect_accumulates ["a,b", "c"] (by decide)

/-- C3: Validation-error aggregation and atomic failure — whenever the
collected validation-error list is non-empty, parserArgs terminates with
the whole aggregated report (fixed banner, then every message indented on
its own line) and exit status 2, returning no partial structures; the
remaining conjuncts show that every violated rule contributes its message
to that list, not only the first one. -/
theorem parserArgs_validation_aggregation (opts : OptionValues)
    (fns : List String) (h : validationErrors opts fns ≠ []) :
    parserArgs opts fns =
      .exit ("swc:" :: (validationErrors opts fns).map (fun e => "  " ++ e)) 2
    ∧ ((truthyO (getOpt opts "outDir") && fns.isEmpty) = true →
        "--out-dir requires filenames" ∈ validationErrors opts fns)
    ∧ ((truthyO (getOpt opts "outFile") && truthyO (getOpt opts "outDir")) = true →
        "--out-file and --out-dir cannot be used together"
          ∈ validationErrors opts fns)
    ∧ ((truthyO (getOpt opts "watch")
        && (!truthyO (getOpt opts "outFile") && !truthyO (getOpt opts "outDir"))) = true →
        "--watch requires --out-file or --out-dir" ∈ validationErrors opts fns)
    ∧ ((truthyO (getOpt opts "watch") && fns.isEmpty) = true →
        "--watch requires filenames" ∈ validationErrors opts fns)
    ∧ (∀ m ∈ workersErrors opts, m ∈ validationErrors opts fns) := by
  refine ⟨?_, ?_, ?_, ?_, ?_, ?_⟩
  · rcases hv : validationErrors opts fns with _ | ⟨a, t⟩
    · exact absurd hv h
    · unfold parserArgs
      rw [hv]
      rfl
  · intro hc
    simp [validationErrors, hc]
  · intro hc
    simp [validationErrors, hc]
  · intro hc
    simp [validationErrors, hc]
  · intro hc
    simp [validationErrors, hc]
  · intro m hm
    simp only [validationErrors]
    exact List.mem_append_right _ hm

/-- Witness for C3 at the spec example: out-file with out-dir and watch
but no filenames reports the out-dir, mutual-exclusion and watch
violations together and exits with status 2. -/
theorem parserArgs_validation_aggregation_witness :
    parserArgs [("outFile", JValue.str "x"), ("outDir", JValue.str "y"),
        ("watch", JValue.bool true)] [] =
      CliOutcome.exit ["swc:",
        "  --out-dir requires filenames",
        "  --out-file and --out-dir cannot be used together",
        "  --watch requires filenames"] 2 :=
  (parserArgs_validation_aggregation
    [("outFile", JValue.str "x"), ("outDir", JValue.str "y"),
      ("watch", JValue.bool true)] [] (by decide)).1

/-- C5: Stdin-ambiguity rule — the stdin-ambiguity message is collected
exactly when the output-directory value is falsy, the positional input
list is empty, the filename value is not a string and config-file lookup
is not disabled; hence setting any one of out-dir, a positional input, a
string filename, or no-swcrc suppresses this particular error. -/
theorem stdin_ambiguity_rule (opts : OptionValues) (fns : List String) :
    stdinMsg ∈ validationErrors opts fns ↔
      (truthyO (getOpt opts "outDir") = false ∧ fns = []
        ∧ isStringO (getOpt opts "filename") = false
        ∧ isFalseO (getOpt opts "swcrc") = false) :=
  stdin_mem_validationErrors opts fns

/-- C7: Config-key normalisation round-trip — a hyphen followed by a
lowercase letter camelises to the uppercased letter with the hyphen
removed, the key source-maps normalises exactly to the flag-derived key
sourceMaps, and a config file carrying source-maps resolves, when the
flag itself kept default provenance, to its value under the sourceMaps
key, just as the equivalent flag would. -/
theorem config_key_normalization (c2 : Char) (rest : List Char)
    (isDefault : String → Bool) (opts : OptionValues) (v : JValue)
    (hc : c2.isLower = true) (hd : isDefault "sourceMaps" = true) :
    camelizeChars ('-' :: c2 :: rest) = c2.toUpper :: camelizeChars rest
    ∧ camelizeKey "source-maps" = "sourceMaps"
    ∧ getOpt (loadCLIConfigFile isDefault opts [("source-maps", v)])
        "sourceMaps" = some v := by
  refine ⟨?_, rfl, ?_⟩
  · simp [camelizeChars, hc]
  · unfold loadCLIConfigFile
    rw [show normalizeConfigKeys [("source-maps", v)] = [("sourceMaps", v)]
      from rfl]
    rw [List.append_assoc, getOpt_append, getOpt_append]
    rw [getOpt_filter (fun s => !isDefault s) opts "sourceMaps", hd]
    simp [getOpt]

/-- Witness for C7 at a concrete letter, provenance map and value. -/
theorem config_key_normalization_witness :
    camelizeChars ('-' :: 'x' :: []) = 'x'.toUpper :: camelizeChars []
    ∧ camelizeKey "source-maps" = "sourceMaps"
    ∧ getOpt (loadCLIConfigFile (fun _ => true) []
        [("source-maps", JValue.bool true)]) "sourceMaps" =
      some (JValue.bool true) :=
  config_key_normalization 'x' [] (fun _ => true) [] (JValue.bool true)
    (by decide) rfl

/-- C8: Source-map absence preservation — the assembled compiler-options
tree carries a sourceMaps field exactly when the merged options defined
one, with the very same value: absence stays absence and no coerced
default appears. -/
theorem sourceMaps_absence_preserved (opts : OptionValues) :
    objGetJ (assembleSwcOptions opts) "sourceMaps" = getOpt opts "sourceMaps" := by
  unfold assembleSwcOptions objGetJ
  cases h1 : getOpt opts "sourceFileName" <;>
  cases h2 : getOpt opts "sourceRoot" <;>
  cases h3 : getOpt opts "configFile" <;>
  cases h4 : getOpt opts "swcrc" <;>
  cases h5 : getOpt opts "sourceMaps" <;>
    simp +decide [optField, objGet]

/-- C10: A bare filename flag does not satisfy the stdin check — the
recorded value of a value-less filename flag is the boolean true, which
is not a string, so with a falsy out-dir, no positional inputs and
config lookup enabled the stdin-ambiguity message is still collected. -/
theorem bare_filename_stdin_ambiguity (opts : OptionValues)
    (h1 : getOpt opts "filename" = some bareFlagValue)
    (h2 : truthyO (getOpt opts "outDir") = false)
    (h3 : isFalseO (getOpt opts "swcrc") = false) :
    isStringO (getOpt opts "filename") = false
    ∧ stdinMsg ∈ validationErrors opts [] := by
  have hs : isStringO (getOpt opts "filename") = false := by
    rw [h1]
    rfl
  exact ⟨hs, (stdin_mem_validationErrors opts []).mpr ⟨h2, rfl, hs, h3⟩⟩

/-- Witness for C10 with only the bare filename flag recorded. -/
theorem bare_filename_stdin_ambiguity_witness :
    isStringO (getOpt [("filename", JValue.bool true)] "filename") = false
    ∧ stdinMsg ∈ validationErrors [("filename", JValue.bool true)] [] :=
  bare_filename_stdin_ambiguity [("filename", JValue.bool true)] rfl rfl rfl
